import Mathlib

/-!
# Verification of the same_picture_finder rename pipeline

A shallow embedding of `src/same_rename.py` and proofs about it.

Modelling conventions:
* Python strings (filenames, artifact text) are `List Char`.
* Python floats are modelled as exact rationals `ℚ`; `numpy.std` returns the
  square root of the variance, so aggregate statistics carry the variance
  (field `stdSq`), which determines the standard deviation.
* The filesystem visible to `rename_images` is a directory: a list of entries
  carrying a name, a creation time and the two timestamps `os.utime` touches.
* Python exceptions are `Except`: a raised exception that is not caught inside
  a function propagates as `Except.error`.
* The external `align_image_stack` process is abstracted by `AlignOutcome`:
  either it exits zero leaving artifact text (or no readable artifact), exits
  non-zero (`subprocess.CalledProcessError`), or fails to execute at all.
-/

namespace SameRename

/-- `OVERLAP_THRESHOLD = 0.9` (src line 11). -/
def OVERLAP_THRESHOLD : ℚ := 9 / 10

/-- `IMAGE_EXTENSIONS = ['.jpg', '.jpeg', '.png', '.tiff', '.tif']` (src line 12). -/
def IMAGE_EXTENSIONS : List (List Char) :=
  [['.', 'j', 'p', 'g'], ['.', 'j', 'p', 'e', 'g'], ['.', 'p', 'n', 'g'],
   ['.', 't', 'i', 'f', 'f'], ['.', 't', 'i', 'f']]

/-- The marker `"seq_"` (constant SEQUENCE_PR…IX, src line 13). -/
def SEQ_MARKER : List Char := ['s', 'e', 'q', '_']

/-- One command-line flag `--corr=0.d` of the three parameter sets (src line 14). -/
def corrFlag (d : Char) : List Char := ['-', '-', 'c', 'o', 'r', 'r', '=', '0', '.', d]

/-- `ALIGN_PARAMS = [['--corr=0.8'], ['--corr=0.9'], ['--corr=0.7']]` (src line 14). -/
def ALIGN_PARAMS : List (List (List Char)) := [[corrFlag '8'], [corrFlag '9'], [corrFlag '7']]

/-- Python `str.lower()` restricted to the ASCII range, which is all the
extension test ever compares against. -/
def pyLower (f : List Char) : List Char := f.map Char.toLower

/-- `is_image_file` (src lines 16-18):
`any(filename.lower().endswith(ext) for ext in IMAGE_EXTENSIONS)`. -/
def is_image_file (f : List Char) : Bool :=
  IMAGE_EXTENSIONS.any fun ext => ext.isSuffixOf (pyLower f)

/-- `is_already_renamed` (src lines 20-22): `re.match("seq_[0-9]+_", filename)`.
`re.match` anchors at the start of the string; since the character after the
greedy `[0-9]+` must be the non-digit `_`, maximal munch of the digit run is
exact, so the match succeeds iff the name starts with the marker, then one or
more digits, then an underscore. -/
def is_already_renamed (f : List Char) : Bool :=
  SEQ_MARKER.isPrefixOf f &&
    match f.drop SEQ_MARKER.length with
    | [] => false
    | c :: cs =>
      c.isDigit &&
        match cs.dropWhile Char.isDigit with
        | '_' :: _ => true
        | _ => false

/-! ## The artifact parser (src lines 42-64)

`parse_pto_file` scans the artifact text with
`re.findall(r'c n\d+ N\d+ x\d+ y\d+ X\d+ Y\d+ t(\d+)', data)`.
Each `\d+` in the pattern is followed by a non-digit literal, so greedy
digit-matching without backtracking is exact, and `findall` returns the list
of captured tag digit-strings of the leftmost non-overlapping matches.
(The artifact is produced by align_image_stack and is ASCII, so `\d` is
modelled as an ASCII digit.) -/

/-- Match one literal character. -/
def matchLit (c : Char) : List Char → Option (List Char)
  | [] => none
  | d :: ds => if d = c then some ds else none

/-- Match a literal character sequence. -/
def matchLits : List Char → List Char → Option (List Char)
  | [], s => some s
  | c :: cs, s => (matchLit c s).bind (matchLits cs)

/-- Greedily match one-or-more digits (`\d+`), returning the digit run and the
rest of the input. -/
def takeDigits1 : List Char → Option (List Char × List Char)
  | [] => none
  | c :: cs =>
    if c.isDigit then some (c :: cs.takeWhile Char.isDigit, cs.dropWhile Char.isDigit)
    else none

/-- Match a literal segment of the pattern followed by an uncaptured `\d+`. -/
def seg (lit : List Char) (s : List Char) : Option (List Char) :=
  (matchLits lit s).bind fun s2 => (takeDigits1 s2).map Prod.snd

/-- Match the whole control-point pattern at the head of the input, returning
the captured tag digits and the input remaining after the match. -/
def matchCP (s : List Char) : Option (List Char × List Char) :=
  (seg ['c', ' ', 'n'] s).bind fun s1 =>
  (seg [' ', 'N'] s1).bind fun s2 =>
  (seg [' ', 'x'] s2).bind fun s3 =>
  (seg [' ', 'y'] s3).bind fun s4 =>
  (seg [' ', 'X'] s4).bind fun s5 =>
  (seg [' ', 'Y'] s5).bind fun s6 =>
  (matchLits [' ', 't'] s6).bind fun s7 => takeDigits1 s7

/-- `re.findall` of the control-point pattern: scan left to right, on a match
emit the captured tag and resume after the match, otherwise advance one
character.  The fuel argument is an upper bound on the number of scan steps;
every step consumes at least one character, so `s.length` steps always
suffice (`findAllF_stable` below). -/
def findAllF : ℕ → List Char → List (List Char)
  | 0, _ => []
  | _, [] => []
  | fuel + 1, c :: cs =>
    match matchCP (c :: cs) with
    | some (tag, rest) => tag :: findAllF fuel rest
    | none => findAllF fuel cs

/-- The list of captured control-point tags of an artifact text. -/
def findAll (s : List Char) : List (List Char) := findAllF s.length s

/-- `parse_pto_file` (src lines 42-64), on artifact text that was read
successfully: count the pattern matches; if positive, return the single
overlap density `count / max(1, #distinct tags)`, else return nothing. -/
def parse_pto_file (data : List Char) : List ℚ :=
  let control_points := findAll data
  let control_point_count := control_points.length
  if 0 < control_point_count then
    [(control_point_count : ℚ) / ((max 1 control_points.dedup.length : ℕ) : ℚ)]
  else []

/-! ## The alignment invoker (src lines 29-40) -/

/-- Outcome of one `subprocess.run(['align_image_stack', ...], check=True)`
call: exit zero with the artifact written (`ok some`), exit zero but the
artifact missing or unreadable (`ok none`, surfaced inside the parser),
non-zero exit (`CalledProcessError`), or any other execution error. -/
inductive AlignOutcome where
  | ok (artifact : Option (List Char))
  | processError
  | otherError
deriving DecidableEq

/-- Error lines printed by the invoker and the parser. -/
inductive LogEvent where
  | alignProcessError (params : List (List Char))
  | alignUnexpectedError (params : List (List Char))
  | ptoNotFound
deriving DecidableEq

/-- The parser's file access: reading the artifact file either yields its text
or raises, which `parse_pto_file` catches, logs and turns into `[]`
(src lines 59-62). -/
def parse_pto_run : Option (List Char) → List ℚ × List LogEvent
  | none => ([], [LogEvent.ptoNotFound])
  | some data => (parse_pto_file data, [])

/-- `run_align_image_stack` (src lines 29-40): on success parse the artifact;
on `CalledProcessError` or any unexpected error, log and return `[]`.
Returns the overlap scores together with the error lines printed. -/
def run_align_image_stack (params : List (List Char)) :
    AlignOutcome → List ℚ × List LogEvent
  | AlignOutcome.ok art => parse_pto_run art
  | AlignOutcome.processError => ([], [LogEvent.alignProcessError params])
  | AlignOutcome.otherError => ([], [LogEvent.alignUnexpectedError params])

/-! ## The parallel aggregator (src lines 66-102) -/

/-- `np.mean`. -/
def mean (l : List ℚ) : ℚ := l.sum / l.length

/-- Ascending sort, as `np.median` performs internally. -/
def sortedQ (l : List ℚ) : List ℚ := l.insertionSort (fun a b => a ≤ b)

/-- `np.median`: middle element of the sorted list for odd length, average of
the two middle elements for even length. -/
def median (l : List ℚ) : ℚ :=
  let s := sortedQ l
  let n := s.length
  if n % 2 = 1 then s.getD (n / 2) 0
  else (s.getD (n / 2 - 1) 0 + s.getD (n / 2) 0) / 2

/-- The square of `np.std`: the mean squared deviation from the mean. -/
def variance (l : List ℚ) : ℚ := (l.map fun x => (x - mean l) ^ 2).sum / l.length

/-- The aggregate statistics printed and returned by the aggregator.
`stdSq` is the variance; `np.std` returns its square root, which is a fixed
function of `stdSq`, so equality of `stdSq` is equivalent to equality of the
reported standard deviation. -/
structure Stats where
  mean : ℚ
  median : ℚ
  stdSq : ℚ
deriving DecidableEq

/-- `get_overlap_ratios_parallel` (src lines 66-102), given the value each
`run_align_image_stack` future returned, listed in completion order: append
each non-empty result, flatten, and if anything remains compute the
statistics, else report no data (`(None, None, None)` in the source,
`none` here). -/
def get_overlap_ratios_parallel (results : List (List ℚ)) : Option Stats :=
  let overlap_results := results.filter fun r => decide (r ≠ [])
  let all_overlap_scores := overlap_results.flatten
  if all_overlap_scores = [] then none
  else
    some { mean := mean all_overlap_scores
           median := median all_overlap_scores
           stdSq := variance all_overlap_scores }

/-! ## The decision and rename stage (src lines 104-133) -/

/-- The per-candidate selection test in `rename_images` (src line 121):
`[img for img in images if mean_overlap >= OVERLAP_THRESHOLD]`.  The test
does not look at `img` at all, only at the directory-wide mean. -/
def high_overlap_images (images : List (List Char)) (mean_overlap : ℚ) : List (List Char) :=
  images.filter fun _ => decide (OVERLAP_THRESHOLD ≤ mean_overlap)

/-- A directory entry: name, `st_ctime`, `st_mtime`, `st_atime`.  Timestamps
are epoch seconds; only their ordering and equality matter to the program, so
they are modelled as integers. -/
structure Entry where
  name : List Char
  ctime : ℤ
  mtime : ℤ
  atime : ℤ
deriving DecidableEq

/-- A directory: the entries `os.listdir` would report, in listing order. -/
abbrev Dir := List Entry

/-- Exceptions raised by the modelled `os` calls. -/
inductive PyError where
  | fileNotFound (path : List Char)
deriving DecidableEq

/-- Equality of modelled call results is decidable (used to evaluate the
embedding on concrete inputs). -/
instance instDecEqExcept {ε α : Type} [DecidableEq ε] [DecidableEq α] :
    DecidableEq (Except ε α) := fun a b =>
  match a, b with
  | Except.ok x, Except.ok y => decidable_of_iff (x = y) (by simp)
  | Except.error e, Except.error f => decidable_of_iff (e = f) (by simp)
  | Except.ok _, Except.error _ => isFalse (by simp)
  | Except.error _, Except.ok _ => isFalse (by simp)

/-- Look a path up in the directory. -/
def lookupFile (d : Dir) (p : List Char) : Option Entry :=
  d.find? fun e => decide (e.name = p)

/-- `os.path.getmtime`: the entry's mtime, raising `FileNotFoundError` for a
missing path. -/
def os_path_getmtime (d : Dir) (p : List Char) : Except PyError ℤ :=
  match lookupFile d p with
  | some e => Except.ok e.mtime
  | none => Except.error (PyError.fileNotFound p)

/-- `os.utime(p, (t, t))`: set the entry's access and modification times,
raising `FileNotFoundError` for a missing path. -/
def os_utime (d : Dir) (p : List Char) (t : ℤ) : Except PyError Dir :=
  match lookupFile d p with
  | some _ => Except.ok (d.map fun e => if e.name = p then { e with atime := t, mtime := t } else e)
  | none => Except.error (PyError.fileNotFound p)

/-- `shutil.move` within one directory (`os.rename`): the entry keeps its
timestamps and takes the new name, replacing any entry already at the new
name; raises for a missing source. -/
def shutil_move (d : Dir) (old target : List Char) : Except PyError Dir :=
  match lookupFile d old with
  | some e =>
      Except.ok ((d.filter fun x => decide (x.name ≠ old) && decide (x.name ≠ target))
        ++ [{ e with name := target }])
  | none => Except.error (PyError.fileNotFound old)

/-- `preserve_metadata` (src lines 24-27):
`creation_time = os.path.getmtime(source); os.utime(target, (t, t))`.
Neither call is guarded, so either exception propagates to the caller. -/
def preserve_metadata (d : Dir) (source target : List Char) : Except PyError Dir :=
  match os_path_getmtime d source with
  | Except.error e => Except.error e
  | Except.ok creation_time => os_utime d target creation_time

/-- The decimal digit character of `n % 10`. -/
def digitChar (n : ℕ) : Char := Char.ofNat (48 + n % 10)

/-- Decimal digits of a natural number, most significant first (fuelled;
`n + 1` steps always suffice). -/
def natToDigitsAux : ℕ → ℕ → List Char → List Char
  | 0, _, acc => acc
  | fuel + 1, n, acc =>
    if n < 10 then digitChar n :: acc
    else natToDigitsAux fuel (n / 10) (digitChar n :: acc)

/-- Decimal representation of a natural number. -/
def natToDigits (n : ℕ) : List Char := natToDigitsAux (n + 1) n []

/-- Python `f"{n:03d}"`: the decimal digits, zero-padded on the left to at
least three characters. -/
def pad3 (n : ℕ) : List Char :=
  List.replicate (3 - (natToDigits n).length) '0' ++ natToDigits n

/-- The new name built in the rename loop (src line 126):
`f"{SEQUENCE_…}{counter:03d}_{img}"`. -/
def seqName (counter : ℕ) (img : List Char) : List Char :=
  SEQ_MARKER ++ pad3 counter ++ '_' :: img

/-- The candidate list of `rename_images` (src lines 106-107): image files not
already renamed, sorted ascending by creation time (Python's sort and
insertion sort are both stable). -/
def candidates (d : Dir) : List (List Char) :=
  ((d.filter fun e => is_image_file e.name && !is_already_renamed e.name).insertionSort
    (fun a b => a.ctime ≤ b.ctime)).map Entry.name

/-- The rename loop of `rename_images` (src lines 124-133): for each selected
image, build the new name; when it differs from the old one, move the file
and then call `preserve_metadata(old_path, new_path)`; the counter always
advances.  Returns the final directory and the performed moves, or the first
uncaught exception. -/
def renameLoop : Dir → List (List Char) → ℕ →
    Except PyError (Dir × List (List Char × List Char))
  | d, [], _ => Except.ok (d, [])
  | d, img :: rest, counter =>
    let new_name := seqName counter img
    if img ≠ new_name then
      match shutil_move d img new_name with
      | Except.error e => Except.error e
      | Except.ok d1 =>
        match preserve_metadata d1 img new_name with
        | Except.error e => Except.error e
        | Except.ok d2 =>
          match renameLoop d2 rest (counter + 1) with
          | Except.error e => Except.error e
          | Except.ok p => Except.ok (p.1, (img, new_name) :: p.2)
    else
      renameLoop d rest (counter + 1)

/-- The notices `rename_images` can print instead of renaming. -/
inductive Notice where
  | notEnoughImages
  | noValidOverlap
deriving DecidableEq

/-- What a run of `rename_images` did: the resulting directory, the moves
performed, whether the aggregator was invoked, and the notice printed if the
run aborted early. -/
structure RunResult where
  dir : Dir
  moves : List (List Char × List Char)
  aggCalled : Bool
  notice : Option Notice
deriving DecidableEq

/-- `rename_images` (src lines 104-133).  The values the three concurrent
`run_align_image_stack` futures would produce are passed in as
`taskResults` (the external processes are outside the embedding); the
aggregator itself is `get_overlap_ratios_parallel`.  An uncaught exception
in the rename loop surfaces as `Except.error`. -/
def rename_images (d : Dir) (taskResults : List (List ℚ)) : Except PyError RunResult :=
  let images := candidates d
  if images.length < 2 then
    Except.ok { dir := d, moves := [], aggCalled := false, notice := some Notice.notEnoughImages }
  else
    match get_overlap_ratios_parallel taskResults with
    | none =>
        Except.ok { dir := d, moves := [], aggCalled := true, notice := some Notice.noValidOverlap }
    | some st =>
        match renameLoop d (high_overlap_images images st.mean) 1 with
        | Except.error e => Except.error e
        | Except.ok p =>
            Except.ok { dir := p.1, moves := p.2, aggCalled := true, notice := none }

/-! ## Concrete sample data used in witnesses and counterexamples -/

/-- Sample filename. -/
def imgA : List Char := "a.jpg".data

/-- Sample filename. -/
def imgB : List Char := "b.jpg".data

/-- Sample filename. -/
def imgC : List Char := "c.jpg".data

/-- Sample filename. -/
def imgD : List Char := "d.jpg".data

/-- Sample filename. -/
def imgSolo : List Char := "solo.jpg".data

/-- A directory holding two images, listed out of creation order. -/
def dirAB : Dir := [⟨imgB, 2, 20, 20⟩, ⟨imgA, 1, 10, 10⟩]

/-- `dirAB` after `shutil.move` has renamed its first candidate. -/
def dirABmoved : Dir := [⟨imgB, 2, 20, 20⟩, ⟨seqName 1 imgA, 1, 10, 10⟩]

/-- A second two-image directory. -/
def dirCD : Dir := [⟨imgC, 5, 50, 50⟩, ⟨imgD, 6, 60, 60⟩]

/-- A directory holding a single image. -/
def dirSolo : Dir := [⟨imgSolo, 1, 1, 1⟩]

/-- Artifact text with two control-point records sharing one tag. -/
def ptoA : List Char := "c n0 N1 x100 y200 X300 Y400 t0\nc n0 N1 x5 y6 X7 Y8 t0".data

/-- Artifact text with two control-point records with distinct tags. -/
def ptoB : List Char := "c n0 N1 x1 y2 X3 Y4 t0\nc n0 N1 x5 y6 X7 Y8 t1".data

/-- Artifact text with three control-point records over two distinct tags. -/
def ptoC : List Char :=
  "c n0 N1 x1 y2 X3 Y4 t0\nc n0 N1 x5 y6 X7 Y8 t0\nc n0 N1 x9 y9 X9 Y9 t1".data

/-- Artifact text with a single control-point record. -/
def ptoOne : List Char := "c n0 N1 x1 y2 X3 Y4 t7".data

/-- A filename with an upper-case image extension. -/
def imgUpper : List Char := "photo.JPG".data

/-! ## Parser machinery lemmas -/

theorem matchLit_lt {c : Char} {s s2 : List Char} (h : matchLit c s = some s2) :
    s2.length < s.length := by
  cases s with
  | nil => simp [matchLit] at h
  | cons d ds =>
    by_cases hd : d = c
    · simp only [matchLit, if_pos hd, Option.some.injEq] at h
      subst h
      simp
    · simp [matchLit, hd] at h

theorem matchLits_le {lit s s2 : List Char} (h : matchLits lit s = some s2) :
    s2.length ≤ s.length := by
  induction lit generalizing s with
  | nil =>
    simp only [matchLits, Option.some.injEq] at h
    subst h
    exact le_refl _
  | cons c cs ih =>
    simp only [matchLits, Option.bind_eq_some] at h
    obtain ⟨s1, h1, h2⟩ := h
    exact le_trans (ih h2) (le_of_lt (matchLit_lt h1))

theorem takeDigits1_lt {s : List Char} {p : List Char × List Char}
    (h : takeDigits1 s = some p) : p.2.length < s.length := by
  cases s with
  | nil => simp [takeDigits1] at h
  | cons c cs =>
    by_cases hc : c.isDigit
    · simp only [takeDigits1, if_pos hc, Option.some.injEq] at h
      subst h
      exact Nat.lt_succ_of_le ((List.dropWhile_sublist _).length_le)
    · simp [takeDigits1, hc] at h

theorem seg_lt {lit s s2 : List Char} (h : seg lit s = some s2) :
    s2.length < s.length := by
  simp only [seg, Option.bind_eq_some, Option.map_eq_some'] at h
  obtain ⟨s1, h1, p, h2, h3⟩ := h
  subst h3
  exact lt_of_lt_of_le (takeDigits1_lt h2) (matchLits_le h1)

theorem matchCP_lt {s : List Char} {p : List Char × List Char}
    (h : matchCP s = some p) : p.2.length < s.length := by
  simp only [matchCP, Option.bind_eq_some] at h
  obtain ⟨s1, h1, s2, h2, s3, h3, s4, h4, s5, h5, s6, h6, s7, h7, h8⟩ := h
  exact lt_of_lt_of_le (takeDigits1_lt h8) <|
    le_trans (matchLits_le h7) <|
    le_trans (le_of_lt (seg_lt h6)) <|
    le_trans (le_of_lt (seg_lt h5)) <|
    le_trans (le_of_lt (seg_lt h4)) <|
    le_trans (le_of_lt (seg_lt h3)) <|
    le_trans (le_of_lt (seg_lt h2)) (le_of_lt (seg_lt h1))

/-- The fuel in `findAllF` is irrelevant as soon as it is at least the input
length: the scan is the unbounded `re.findall` scan. -/
theorem findAllF_stable : ∀ {f1 f2 : ℕ} {s : List Char},
    s.length ≤ f1 → s.length ≤ f2 → findAllF f1 s = findAllF f2 s := by
  intro f1
  induction f1 with
  | zero =>
    intro f2 s h1 _
    have hs : s = [] := List.eq_nil_of_length_eq_zero (Nat.le_zero.mp h1)
    subst hs
    cases f2 <;> simp [findAllF]
  | succ n ih =>
    intro f2 s h1 h2
    cases s with
    | nil => cases f2 <;> simp [findAllF]
    | cons c cs =>
      cases f2 with
      | zero => exact absurd h2 (by simp)
      | succ m =>
        simp only [findAllF]
        cases hm : matchCP (c :: cs) with
        | none =>
          have hc1 : cs.length ≤ n := by simpa using Nat.lt_succ_iff.mp (Nat.lt_of_lt_of_le (Nat.lt_succ_self _) (by simpa using h1))
          have hc2 : cs.length ≤ m := by simpa using Nat.lt_succ_iff.mp (Nat.lt_of_lt_of_le (Nat.lt_succ_self _) (by simpa using h2))
          exact ih hc1 hc2
        | some p =>
          obtain ⟨tag, rest⟩ := p
          have hr : rest.length < (c :: cs).length := matchCP_lt hm
          have hr1 : rest.length ≤ n := by
            have := lt_of_lt_of_le hr h1
            omega
          have hr2 : rest.length ≤ m := by
            have := lt_of_lt_of_le hr h2
            omega
          dsimp only
          rw [ih hr1 hr2]

/-- Closed form of the parser on readable artifact text: nothing for zero
matches, otherwise the single density `#matches / #distinct tags`. -/
theorem parse_pto_file_eq (data : List Char) :
    parse_pto_file data = if findAll data = [] then []
      else [((findAll data).length : ℚ) / ((findAll data).dedup.length : ℚ)] := by
  by_cases h : findAll data = []
  · simp [parse_pto_file, h]
  · have hpos : 0 < (findAll data).length := List.length_pos.mpr h
    have hd : (findAll data).dedup ≠ [] := by simpa [List.dedup_eq_nil] using h
    have hdpos : 1 ≤ (findAll data).dedup.length := List.length_pos.mpr hd
    simp only [parse_pto_file, if_pos hpos, if_neg h, Nat.max_eq_right hdpos]

/-- C4: an artifact with zero records matching the control-point pattern
parses to the empty sequence; one with `N ≥ 1` matching records over `D`
distinct type tags parses to the one-element sequence `[N / D]`; in
particular `N` records with `N` distinct tags give density 1 and `N` records
with one distinct tag give density `N`. -/
theorem parser_overlap_density (data : List Char) :
    (findAll data = [] → parse_pto_file data = []) ∧
    (findAll data ≠ [] →
      parse_pto_file data =
        [((findAll data).length : ℚ) / ((findAll data).dedup.length : ℚ)]) ∧
    ((findAll data).dedup.length = (findAll data).length → findAll data ≠ [] →
      parse_pto_file data = [1]) ∧
    ((findAll data).dedup.length = 1 → parse_pto_file data = [((findAll data).length : ℚ)]) := by
  refine ⟨fun h => by simp [parse_pto_file_eq, h], fun h => by simp [parse_pto_file_eq, h],
    fun he h => ?_, fun h1 => ?_⟩
  · have hpos : (0 : ℚ) < ((findAll data).length : ℚ) := by
      exact_mod_cast List.length_pos.mpr h
    simp [parse_pto_file_eq, h, he, div_self (ne_of_gt hpos)]
  · have h : findAll data ≠ [] := by
      intro hnil
      rw [hnil] at h1
      simp at h1
    simp [parse_pto_file_eq, h, h1]

/-- C4 witness: concrete artifacts exercising every branch of the parser
density theorem. -/
theorem parser_overlap_density_witness :
    parse_pto_file [] = [] ∧
    parse_pto_file ptoA = [2] ∧
    parse_pto_file ptoB = [1] ∧
    parse_pto_file ptoC = [3 / 2] := by
  refine ⟨(parser_overlap_density []).1 (by decide), ?_, ?_, ?_⟩
  · have h := (parser_overlap_density ptoA).2.2.2 (by decide)
    rw [h]
    norm_num [show (findAll ptoA).length = 2 from by decide]
  · have h := (parser_overlap_density ptoB).2.2.1 (by decide) (by decide)
    simpa using h
  · have h := (parser_overlap_density ptoC).2.1 (by decide)
    rw [h]
    norm_num [show (findAll ptoC).length = 3 from by decide,
      show (findAll ptoC).dedup.length = 2 from by decide]

/-- C10: the extension test lower-cases the filename before comparing, so it
is case-insensitive: a name is accepted exactly when its lowercased form ends
with one of `.jpg`, `.jpeg`, `.png`, `.tiff`, `.tif`; e.g. `photo.JPG` is
accepted. -/
theorem image_extension_case_insensitive (f : List Char) :
    (is_image_file f = true ↔
      ∃ ext ∈ [['.', 'j', 'p', 'g'], ['.', 'j', 'p', 'e', 'g'], ['.', 'p', 'n', 'g'],
        ['.', 't', 'i', 'f', 'f'], ['.', 't', 'i', 'f']],
        ext.isSuffixOf (pyLower f) = true) ∧
    is_image_file imgUpper = true := by
  constructor
  · simp [is_image_file, IMAGE_EXTENSIONS, List.any_eq_true]
  · decide

/-- C9: when the external alignment command exits non-zero
(`CalledProcessError`) or any unexpected execution error occurs, the invoker
logs the error and returns the empty score sequence. -/
theorem invoker_failure_logged_empty (params : List (List Char)) (o : AlignOutcome)
    (h : o = AlignOutcome.processError ∨ o = AlignOutcome.otherError) :
    (run_align_image_stack params o).1 = [] ∧
    (run_align_image_stack params o).2 ≠ [] := by
  rcases h with h | h <;> subst h <;> simp [run_align_image_stack]

/-- C9 witness: a concrete failing invocation. -/
theorem invoker_failure_logged_empty_witness :
    (run_align_image_stack [corrFlag '8'] AlignOutcome.processError).1 = [] ∧
    (run_align_image_stack [corrFlag '8'] AlignOutcome.processError).2 ≠ [] :=
  invoker_failure_logged_empty [corrFlag '8'] AlignOutcome.processError (Or.inl rfl)

/-- A filter whose predicate ignores the element is all-or-nothing. -/
theorem filter_const (b : Bool) (l : List (List Char)) :
    (l.filter fun _ => b) = if b then l else [] := by
  cases b <;> simp

/-- C3: the selection step of `rename_images` selects a candidate iff the
directory-wide mean overlap is at least the fixed threshold 0.9; since the
mean is one number for the whole directory, the candidate list is kept
entirely or discarded entirely. -/
theorem selection_global_mean_all_or_none (images : List (List Char)) (m : ℚ) :
    high_overlap_images images m = (if OVERLAP_THRESHOLD ≤ m then images else []) ∧
    OVERLAP_THRESHOLD = 9 / 10 := by
  constructor
  · rw [high_overlap_images, filter_const]
    by_cases h : OVERLAP_THRESHOLD ≤ m <;> simp [h]
  · rfl

/-- C8: with fewer than two candidate images the rename stage is a no-op: no
moves, the aggregator is not invoked, the "not enough images" notice is
printed, and no exception is raised. -/
theorem not_enough_images_no_op (d : Dir) (taskResults : List (List ℚ))
    (h : (candidates d).length < 2) :
    rename_images d taskResults =
      Except.ok { dir := d, moves := [], aggCalled := false,
                  notice := some Notice.notEnoughImages } := by
  simp only [rename_images]
  rw [if_pos h]

/-- C8 witness: a directory with a single image. -/
theorem not_enough_images_no_op_witness :
    rename_images dirSolo [] =
      Except.ok { dir := dirSolo, moves := [], aggCalled := false,
                  notice := some Notice.notEnoughImages } :=
  not_enough_images_no_op dirSolo [] (by decide)

/-! ## Names produced by the rename stage are excluded from candidacy -/

theorem digitChar_isDigit (n : ℕ) : (digitChar n).isDigit = true := by
  have h : ∀ m, m < 10 → (Char.ofNat (48 + m)).isDigit = true := by decide
  exact h (n % 10) (Nat.mod_lt n (by norm_num))

theorem natToDigitsAux_digits : ∀ (fuel n : ℕ) (acc : List Char),
    (∀ c ∈ acc, c.isDigit = true) → ∀ c ∈ natToDigitsAux fuel n acc, c.isDigit = true := by
  intro fuel
  induction fuel with
  | zero => intro n acc hacc c hc; exact hacc c hc
  | succ m ih =>
    intro n acc hacc c hc
    simp only [natToDigitsAux] at hc
    by_cases hn : n < 10
    · rw [if_pos hn] at hc
      rcases List.mem_cons.mp hc with h | h
      · rw [h]; exact digitChar_isDigit n
      · exact hacc c h
    · rw [if_neg hn] at hc
      refine ih (n / 10) (digitChar n :: acc) ?_ c hc
      intro x hx
      rcases List.mem_cons.mp hx with h | h
      · rw [h]; exact digitChar_isDigit n
      · exact hacc x h

theorem pad3_digits (n : ℕ) : ∀ c ∈ pad3 n, c.isDigit = true := by
  intro c hc
  rcases List.mem_append.mp hc with h | h
  · rw [(List.eq_of_mem_replicate h : c = '0')]
    decide
  · exact natToDigitsAux_digits (n + 1) n [] (by simp) c h

theorem pad3_ne_nil (n : ℕ) : pad3 n ≠ [] := by
  intro h
  rw [pad3, List.append_eq_nil] at h
  have h1 := h.1
  rw [h.2] at h1
  simp at h1

theorem isPrefixOf_append_self (l r : List Char) : l.isPrefixOf (l ++ r) = true := by
  induction l with
  | nil => simp [List.isPrefixOf]
  | cons c cs ih => simp [List.isPrefixOf, ih]

/-- Any name of the form the rename loop produces — marker, at least one
digit, underscore, original name — matches `is_already_renamed`. -/
theorem is_already_renamed_seqName (k : ℕ) (img : List Char) :
    is_already_renamed (seqName k img) = true := by
  obtain ⟨c, cs, hp⟩ : ∃ c cs, pad3 k = c :: cs := by
    cases hp : pad3 k with
    | nil => exact absurd hp (pad3_ne_nil k)
    | cons c cs => exact ⟨c, cs, rfl⟩
  have hcd : c.isDigit = true := pad3_digits k c (by rw [hp]; exact List.mem_cons_self _ _)
  have hcs : ∀ x ∈ cs, x.isDigit = true := fun x hx =>
    pad3_digits k x (by rw [hp]; exact List.mem_cons_of_mem _ hx)
  rw [is_already_renamed, seqName, List.append_assoc, isPrefixOf_append_self, Bool.true_and,
    List.drop_left, hp]
  simp only [List.cons_append]
  rw [hcd, Bool.true_and, List.dropWhile_append_of_pos hcs, List.dropWhile_cons,
    if_neg (by decide : ¬('_'.isDigit = true))]
  rfl

/-- A name already carrying the sequence marker is filtered out of the
candidate list of `rename_images`. -/
theorem seqName_not_candidate (k : ℕ) (img : List Char) (d : Dir) :
    seqName k img ∉ candidates d := by
  intro hmem
  rw [candidates] at hmem
  simp only [List.mem_map] at hmem
  obtain ⟨e, he, hname⟩ := hmem
  rw [List.mem_insertionSort] at he
  have hfil := (List.mem_filter.mp he).2
  rw [hname] at hfil
  rw [Bool.and_eq_true] at hfil
  have := hfil.2
  rw [is_already_renamed_seqName k img] at this
  simp at this

/-- Every move the rename loop performs has its source in the input list. -/
theorem renameLoop_moves_mem : ∀ (imgs : List (List Char)) (d : Dir) (counter : ℕ)
    (p : Dir × List (List Char × List Char)),
    renameLoop d imgs counter = Except.ok p → ∀ mv ∈ p.2, mv.1 ∈ imgs := by
  intro imgs
  induction imgs with
  | nil =>
    intro d counter p h mv hmv
    simp only [renameLoop, Except.ok.injEq] at h
    rw [← h] at hmv
    simp at hmv
  | cons img rest ih =>
    intro d counter p h mv hmv
    simp only [renameLoop] at h
    split at h
    · split at h
      · exact absurd h (by simp)
      · split at h
        · exact absurd h (by simp)
        · split at h
          · exact absurd h (by simp)
          · rename_i q hq
            simp only [Except.ok.injEq] at h
            rw [← h] at hmv
            rcases List.mem_cons.mp hmv with hm | hm
            · rw [hm]
              exact List.mem_cons_self _ _
            · exact List.mem_cons_of_mem _ (ih _ _ _ hq mv hm)
    · exact List.mem_cons_of_mem _ (ih d (counter + 1) p h mv hmv)

/-- C6: a filename of the form produced by the rename stage — the sequence
marker, one or more digits, an underscore, then the original name — is
recognised by `is_already_renamed`, hence excluded from the candidate list;
consequently a second pipeline run over the directory never moves such a
file. -/
theorem already_renamed_excluded (k : ℕ) (img : List Char) (d : Dir) :
    is_already_renamed (seqName k img) = true ∧
    seqName k img ∉ candidates d ∧
    (∀ taskResults : List (List ℚ), ∀ res : RunResult,
      rename_images d taskResults = Except.ok res →
      ∀ mv ∈ res.moves, mv.1 ≠ seqName k img) := by
  refine ⟨is_already_renamed_seqName k img, seqName_not_candidate k img d, ?_⟩
  intro tr res h mv hmv heq
  simp only [rename_images] at h
  have hsrc : mv.1 ∈ candidates d := by
    split at h
    · simp only [Except.ok.injEq] at h
      rw [← h] at hmv
      simp at hmv
    · split at h
      · simp only [Except.ok.injEq] at h
        rw [← h] at hmv
        simp at hmv
      · split at h
        · exact absurd h (by simp)
        · rename_i q hq
          simp only [Except.ok.injEq] at h
          rw [← h] at hmv
          have hhigh := renameLoop_moves_mem _ _ _ _ hq mv hmv
          exact List.mem_of_mem_filter hhigh
  rw [heq] at hsrc
  exact seqName_not_candidate k img d hsrc

/-! ## Concrete aggregator evaluations -/

theorem agg_single_one : get_overlap_ratios_parallel [[1]] = some ⟨1, 1, 0⟩ := by
  norm_num [get_overlap_ratios_parallel, mean, median, variance, sortedQ,
    List.insertionSort, List.orderedInsert, List.filter, List.flatten]

theorem agg_single_half : get_overlap_ratios_parallel [[1 / 2]] = some ⟨1 / 2, 1 / 2, 0⟩ := by
  norm_num [get_overlap_ratios_parallel, mean, median, variance, sortedQ,
    List.insertionSort, List.orderedInsert, List.filter, List.flatten]

theorem agg_single_three_halves :
    get_overlap_ratios_parallel [[3 / 2]] = some ⟨3 / 2, 3 / 2, 0⟩ := by
  norm_num [get_overlap_ratios_parallel, mean, median, variance, sortedQ,
    List.insertionSort, List.orderedInsert, List.filter, List.flatten]

/-- A full run over `dirAB` whose mean overlap is below the threshold: the
aggregator runs, nothing qualifies, no exception. -/
theorem rename_below_threshold_noop :
    rename_images dirAB [[1 / 2]] =
      Except.ok { dir := dirAB, moves := [], aggCalled := true, notice := none } := by
  have hb : (decide (OVERLAP_THRESHOLD ≤ (1 / 2 : ℚ))) = false := by
    rw [decide_eq_false_iff_not]
    norm_num [OVERLAP_THRESHOLD]
  have hhigh : high_overlap_images (candidates dirAB) (1 / 2) = [] := by
    rw [high_overlap_images, filter_const, hb, if_neg (by simp)]
  simp only [rename_images]
  rw [if_neg (by decide : ¬((candidates dirAB).length < 2)), agg_single_half]
  dsimp only
  rw [hhigh]
  rfl

/-- C6 witness: the marker test accepts a freshly produced name, and a
successfully completed run performs no move whose source carries the
marker. -/
theorem already_renamed_excluded_witness :
    is_already_renamed (seqName 1 imgA) = true ∧
    (∀ mv ∈ ({ dir := dirAB, moves := [], aggCalled := true, notice := none } : RunResult).moves,
      mv.1 ≠ seqName 1 imgA) := by
  have h := already_renamed_excluded 1 imgA dirAB
  exact ⟨h.1, h.2.2 [[1 / 2]] _ rename_below_threshold_noop⟩

/-! ## The metadata-preservation defect -/

/-- C1 (code bug): the rename loop calls `preserve_metadata(old_path,
new_path)` only after `shutil.move(old_path, new_path)`;
`os.path.getmtime(old_path)` then looks at the moved-away source path and
raises `FileNotFoundError`.  The new file's timestamps are never copied and
the loop dies on the first actually renamed file, instead of the new path
receiving the original modification time. -/
theorem preserve_metadata_after_move_crashes :
    shutil_move dirAB imgA (seqName 1 imgA) = Except.ok dirABmoved ∧
    preserve_metadata dirABmoved imgA (seqName 1 imgA) =
      Except.error (PyError.fileNotFound imgA) ∧
    rename_images dirAB [[1]] = Except.error (PyError.fileNotFound imgA) := by
  refine ⟨by decide, by decide, ?_⟩
  have hb : (decide (OVERLAP_THRESHOLD ≤ (1 : ℚ))) = true := by
    rw [decide_eq_true_eq]
    norm_num [OVERLAP_THRESHOLD]
  have hhigh : high_overlap_images (candidates dirAB) 1 = candidates dirAB := by
    rw [high_overlap_images, filter_const, hb, if_pos rfl]
  simp only [rename_images]
  rw [if_neg (by decide : ¬((candidates dirAB).length < 2)), agg_single_one]
  dsimp only
  rw [hhigh]
  rw [show renameLoop dirAB (candidates dirAB) 1 = Except.error (PyError.fileNotFound imgA)
    from by decide]

/-- C2 (code bug): an uncaught `FileNotFoundError` (from the metadata call
after the move) escapes `rename_images` on any run that actually renames a
file, so the pipeline does not always degrade errors to logged messages. -/
theorem exception_escapes_rename_images :
    rename_images dirCD [[3 / 2]] = Except.error (PyError.fileNotFound imgC) := by
  have hb : (decide (OVERLAP_THRESHOLD ≤ (3 / 2 : ℚ))) = true := by
    rw [decide_eq_true_eq]
    norm_num [OVERLAP_THRESHOLD]
  have hhigh : high_overlap_images (candidates dirCD) (3 / 2) = candidates dirCD := by
    rw [high_overlap_images, filter_const, hb, if_pos rfl]
  simp only [rename_images]
  rw [if_neg (by decide : ¬((candidates dirCD).length < 2)), agg_single_three_halves]
  dsimp only
  rw [hhigh]
  rw [show renameLoop dirCD (candidates dirCD) 1 = Except.error (PyError.fileNotFound imgC)
    from by decide]

/-! ## Permutation invariance of the aggregation -/

theorem perm_flatten {l1 l2 : List (List ℚ)} (h : l1.Perm l2) :
    l1.flatten.Perm l2.flatten := by
  induction h with
  | nil => exact List.Perm.refl _
  | cons x _ ih => simpa using ih.append_left x
  | swap x y l =>
    simp only [List.flatten_cons, ← List.append_assoc]
    exact (List.perm_append_comm).append_right _
  | trans _ _ ih1 ih2 => exact ih1.trans ih2

theorem sortedQ_perm_eq {l1 l2 : List ℚ} (h : l1.Perm l2) : sortedQ l1 = sortedQ l2 :=
  List.eq_of_perm_of_sorted
    ((List.perm_insertionSort _ l1).trans (h.trans (List.perm_insertionSort _ l2).symm))
    (List.sorted_insertionSort _ l1) (List.sorted_insertionSort _ l2)

theorem mean_perm_eq {l1 l2 : List ℚ} (h : l1.Perm l2) : mean l1 = mean l2 := by
  rw [mean, mean, h.sum_eq, h.length_eq]

theorem median_perm_eq {l1 l2 : List ℚ} (h : l1.Perm l2) : median l1 = median l2 := by
  rw [median, median, sortedQ_perm_eq h]

theorem variance_perm_eq {l1 l2 : List ℚ} (h : l1.Perm l2) : variance l1 = variance l2 := by
  rw [variance, variance, mean_perm_eq h, (h.map _).sum_eq, h.length_eq]

/-- The aggregate statistics do not depend on the order in which the task
results were collected. -/
theorem agg_perm {l1 l2 : List (List ℚ)} (h : l1.Perm l2) :
    get_overlap_ratios_parallel l1 = get_overlap_ratios_parallel l2 := by
  have hflat : ((l1.filter fun r => decide (r ≠ [])).flatten).Perm
      ((l2.filter fun r => decide (r ≠ [])).flatten) := perm_flatten (h.filter _)
  simp only [get_overlap_ratios_parallel]
  by_cases ha : (l1.filter fun r => decide (r ≠ [])).flatten = []
  · have hb : (l2.filter fun r => decide (r ≠ [])).flatten = [] :=
      (ha ▸ hflat).symm.eq_nil
    rw [if_pos ha, if_pos hb]
  · have hb : ¬((l2.filter fun r => decide (r ≠ [])).flatten = []) := fun hb =>
      ha (hb ▸ hflat).eq_nil
    rw [if_neg ha, if_neg hb, mean_perm_eq hflat, median_perm_eq hflat, variance_perm_eq hflat]

/-- C7: for a fixed assignment of per-parameter-set indicator sequences, the
aggregate statistics are identical under every completion order of the three
concurrent tasks. -/
theorem aggregation_completion_order_invariant (r0 r1 r2 : List ℚ)
    (l : List (List ℚ)) (h : l.Perm [r0, r1, r2]) :
    get_overlap_ratios_parallel l = get_overlap_ratios_parallel [r0, r1, r2] :=
  agg_perm h

/-- C7 witness: two completion orders of three concrete task results. -/
theorem aggregation_completion_order_invariant_witness :
    get_overlap_ratios_parallel [[2], [1], [3]] = get_overlap_ratios_parallel [[1], [2], [3]] :=
  aggregation_completion_order_invariant [1] [2] [3] [[2], [1], [3]]
    (List.Perm.swap [1] [2] [[3]])

/-! ## Every indicator is at least one, so the threshold always passes -/

/-- Every overlap density the parser returns is at least 1, because the
number of matched records is at least the number of distinct tags. -/
theorem parse_ge_one (data : List Char) : ∀ x ∈ parse_pto_file data, 1 ≤ x := by
  intro x hx
  rw [parse_pto_file_eq] at hx
  by_cases h : findAll data = []
  · rw [if_pos h] at hx
    simp at hx
  · rw [if_neg h] at hx
    have hx : x = ((findAll data).length : ℚ) / ((findAll data).dedup.length : ℚ) := by
      simpa using hx
    have hd : (findAll data).dedup ≠ [] := by simpa [List.dedup_eq_nil] using h
    have hdpos : (0 : ℚ) < ((findAll data).dedup.length : ℚ) := by
      exact_mod_cast List.length_pos.mpr hd
    have hdn : (findAll data).dedup.length ≤ (findAll data).length :=
      (List.dedup_sublist _).length_le
    rw [hx, one_le_div hdpos]
    exact_mod_cast hdn

/-- Every score a `run_align_image_stack` call returns is at least 1. -/
theorem run_scores_ge_one (params : List (List Char)) (o : AlignOutcome) :
    ∀ x ∈ (run_align_image_stack params o).1, 1 ≤ x := by
  intro x hx
  cases o with
  | ok art =>
    cases art with
    | none => simp [run_align_image_stack, parse_pto_run] at hx
    | some data => exact parse_ge_one data x hx
  | processError => simp [run_align_image_stack] at hx
  | otherError => simp [run_align_image_stack] at hx

theorem length_le_sum_of_one_le : ∀ l : List ℚ, (∀ x ∈ l, 1 ≤ x) → (l.length : ℚ) ≤ l.sum := by
  intro l hall
  induction l with
  | nil => simp
  | cons a t ih =>
    have ht := ih fun x hx => hall x (List.mem_cons_of_mem _ hx)
    have ha := hall a (List.mem_cons_self _ _)
    simp only [List.length_cons, List.sum_cons]
    push_cast
    linarith

theorem mean_ge_one {l : List ℚ} (hne : l ≠ []) (hall : ∀ x ∈ l, 1 ≤ x) : 1 ≤ mean l := by
  have hlen : (0 : ℚ) < (l.length : ℚ) := by exact_mod_cast List.length_pos.mpr hne
  rw [mean, one_le_div hlen]
  exact length_le_sum_of_one_le l hall

theorem flatten_filter_ne (l : List (List ℚ)) :
    (l.filter fun r => decide (r ≠ [])).flatten = l.flatten := by
  induction l with
  | nil => rfl
  | cons a t ih =>
    cases hd : decide ((a : List ℚ) ≠ []) with
    | true =>
      rw [List.filter_cons, hd, if_pos rfl, List.flatten_cons, List.flatten_cons, ih]
    | false =>
      have ha : a = [] := by simpa using hd
      rw [List.filter_cons, hd, if_neg Bool.false_ne_true, List.flatten_cons, ha,
        List.nil_append, ih]

/-- C5: every overlap indicator the parser can produce is ≥ 1, so whenever
the aggregator yields statistics the directory-wide mean is ≥ 1 and in
particular passes the 0.9 threshold, and the selection keeps every
candidate; the aggregator yields statistics exactly when at least one
parameter-set run returned an indicator. -/
theorem indicators_ge_one_select_all (outs : List (List (List Char) × AlignOutcome)) :
    (∀ st : Stats,
      get_overlap_ratios_parallel
          (outs.map fun po => (run_align_image_stack po.1 po.2).1) = some st →
      1 ≤ st.mean ∧ OVERLAP_THRESHOLD ≤ st.mean ∧
        ∀ images : List (List Char), high_overlap_images images st.mean = images) ∧
    ((get_overlap_ratios_parallel
        (outs.map fun po => (run_align_image_stack po.1 po.2).1)).isSome ↔
      ∃ po ∈ outs, (run_align_image_stack po.1 po.2).1 ≠ []) := by
  constructor
  · intro st hst
    simp only [get_overlap_ratios_parallel] at hst
    split at hst
    · exact absurd hst (by simp)
    · rename_i hne
      have hval := Option.some.inj hst
      subst hval
      have hmean : 1 ≤ mean ((outs.map fun po =>
          (run_align_image_stack po.1 po.2).1).filter fun r => decide (r ≠ [])).flatten := by
        refine mean_ge_one hne ?_
        intro x hx
        rw [flatten_filter_ne] at hx
        obtain ⟨r, hr, hxr⟩ := List.mem_flatten.mp hx
        obtain ⟨po, _, hpo⟩ := List.mem_map.mp hr
        exact run_scores_ge_one po.1 po.2 x (hpo ▸ hxr)
      refine ⟨hmean, le_trans (by norm_num [OVERLAP_THRESHOLD]) hmean, ?_⟩
      intro images
      rw [high_overlap_images, filter_const,
        if_pos (decide_eq_true (le_trans (by norm_num [OVERLAP_THRESHOLD]) hmean))]
  · simp only [get_overlap_ratios_parallel]
    split
    · rename_i hnil
      rw [flatten_filter_ne, List.flatten_eq_nil_iff] at hnil
      simp only [Option.isSome_none, Bool.false_eq_true, false_iff, not_exists]
      intro po hpo
      exact hpo.2 (hnil _ (List.mem_map.mpr ⟨po, hpo.1, rfl⟩))
    · rename_i hnil
      rw [flatten_filter_ne] at hnil
      simp only [Option.isSome_some, true_iff]
      have : ∃ r ∈ (outs.map fun po => (run_align_image_stack po.1 po.2).1), r ≠ [] := by
        by_contra hc
        push_neg at hc
        exact hnil (List.flatten_eq_nil_iff.mpr hc)
      obtain ⟨r, hr, hrne⟩ := this
      obtain ⟨po, hpo, hpor⟩ := List.mem_map.mp hr
      exact ⟨po, hpo, hpor ▸ hrne⟩

/-- C5 witness: one successful run whose artifact holds a single record. -/
theorem indicators_ge_one_select_all_witness :
    1 ≤ (1 : ℚ) ∧ OVERLAP_THRESHOLD ≤ (1 : ℚ) ∧
      ∀ images : List (List Char), high_overlap_images images (1 : ℚ) = images := by
  have hparse : parse_pto_file ptoOne = [1] := by
    rw [parse_pto_file_eq, if_neg (by decide : ¬(findAll ptoOne = []))]
    norm_num [show (findAll ptoOne).length = 1 from by decide,
      show (findAll ptoOne).dedup.length = 1 from by decide]
  have hagg : get_overlap_ratios_parallel
      ([([corrFlag '8'], AlignOutcome.ok (some ptoOne))].map fun po =>
        (run_align_image_stack po.1 po.2).1) = some ⟨1, 1, 0⟩ := by
    simp only [List.map_cons, List.map_nil, run_align_image_stack, parse_pto_run, hparse]
    exact agg_single_one
  exact (indicators_ge_one_select_all
    [([corrFlag '8'], AlignOutcome.ok (some ptoOne))]).1 ⟨1, 1, 0⟩ hagg

/-- C3 witness: the selection at a concrete candidate list and mean. -/
theorem selection_global_mean_all_or_none_witness :
    high_overlap_images [imgA] 1 = (if OVERLAP_THRESHOLD ≤ (1 : ℚ) then [imgA] else []) ∧
    OVERLAP_THRESHOLD = 9 / 10 :=
  selection_global_mean_all_or_none [imgA] 1

/-- C10 witness: the test at a concrete upper-case filename. -/
theorem image_extension_case_insensitive_witness :
    is_image_file imgUpper = true :=
  (image_extension_case_insensitive imgUpper).2

end SameRename
